import Mathlib

/-!
Verification of the envconfig secret-resolution cache and substitution engine.
The definitions below are a shallow embedding of the Go sources
(awsclient package and main.go).  The AWS SDK, the process environment and
the buffered file writer are collaborators, modelled at their interface
boundary: the SDK as a record of functions, the environment as a function
from names to values, the writer as an explicit buffer plus file contents.
A Go panic (nil dereference) is modelled as the value none of an Option.
-/

namespace Envcfg

/-! ### Character classes of the Go regular expressions (ASCII, as in RE2) -/

def isLowerAZ (c : Char) : Bool := 'a' ≤ c && c ≤ 'z'

def isUpperAZ (c : Char) : Bool := 'A' ≤ c && c ≤ 'Z'

def isDigit09 (c : Char) : Bool := '0' ≤ c && c ≤ '9'

def isAlphaAZ (c : Char) : Bool := isUpperAZ c || isLowerAZ c

def isAlnumC (c : Char) : Bool := isAlphaAZ c || isDigit09 c

/-- Go regexp word class. -/
def isWordC (c : Char) : Bool := isAlphaAZ c || isDigit09 c || c = '_'

/-- Character class of nameRegex in awsclient. -/
def nameClassC (c : Char) : Bool :=
  isWordC c || c = '/' || c = '+' || c = '=' || c = '.' || c = '@' || c = '-'

/-- Character class of the secret name inside arnRegex. -/
def arnNameChar (c : Char) : Bool :=
  isWordC c || c = '/' || c = '_' || c = '+' || c = '=' || c = '.' || c = '@' || c = '-'

/-- Character class of the identifier group of placeholderRegex in main.go. -/
def phClassC (c : Char) : Bool :=
  isWordC c || c = '/' || c = ':' || c = '+' || c = '_' || c = '=' || c = '.' ||
    c = '@' || c = '-'

/-- First character class of the envVarRegex capture group. -/
def envClass1 (c : Char) : Bool := isAlphaAZ c || c = '_' || c = '{'

/-- Continuation character class of the envVarRegex capture group. -/
def envClass2 (c : Char) : Bool := isAlphaAZ c || isDigit09 c || c = '_'

/-- Go regexp whitespace class, as used by commentRegex. -/
def isSpaceGo (c : Char) : Bool :=
  c = ' ' || c = '\t' || c = '\n' || c = '\x0c' || c = '\r'

/-! ### Association lists standing in for the Go maps -/

def lookupA {α : Type} : List (String × α) → String → Option α
  | [], _ => none
  | (k, v) :: t, key => if k = key then some v else lookupA t key

/-! ### Data model of the awsclient package -/

/-- Abstract handle standing in for a non-nil aws session pointer. -/
abbrev Session : Type := Nat

/-- The secretsmanager service handle; secretsmanager.New wraps a session. -/
structure SecretsManager where
  sess : Session
deriving DecidableEq

/-- The two shapes of session.Options built by getSession. -/
inductive SessionOptions where
  | sharedConfig (profile : String)
  | withRegion (profile : String) (region : String)
deriving DecidableEq

/-- Errors built by fmt.Errorf in the two source files, one constructor per
call site; collaborator error text is carried as a plain string. -/
inductive GoError where
  | invalidIdentifier (id : String)
  | sessionCreate (region : String) (cause : String)
  | badCredentials (profile : String) (cause : String)
  | serviceWrap (cause : GoError)
  | secretWrap (cause : GoError)
  | secretNotText (id : String)
  | secretFetch (id : String) (cause : String)
  | aggregateFailed (n : Nat)
deriving DecidableEq

/-- Observable interactions with the collaborators: provider calls and the
log lines written by the substitution engine. -/
inductive Ev where
  | estSession (opts : SessionOptions)
  | credsGet
  | newSvc
  | fetch (id : String)
  | logErr (e : GoError)
  | logKeyMissing (k : String)
  | logJsonErr
deriving DecidableEq

/-- The AWS SDK at its interface boundary.  newSessionWithOptions returns a
possibly-nil session pointer together with a possibly-nil error, exactly as
the Go API does; credentialsGet is the credentials round trip on a non-nil
session; getSecretValue returns the optional SecretString field and the
optional call error. -/
structure AwsEnv where
  newSessionWithOptions : SessionOptions → Option Session × Option String
  credentialsGet : Session → Option String
  getSecretValue : SecretsManager → String → Option String × Option String

/-- CacheItem of awsclient: a value of type T plus a possibly-nil error. -/
structure CacheItem (T : Type) where
  item : T
  err : Option GoError
deriving DecidableEq

/-- AWSClient: the three cache tables plus profile and default region. -/
structure Client where
  sessions : List (String × CacheItem (Option Session))
  services : List (String × CacheItem (Option SecretsManager))
  secrets : List (String × CacheItem String)
  profile : String
  defaultRegion : String
deriving DecidableEq

def NewAWSClient (profile defaultRegion : String) : Client :=
  ⟨[], [], [], profile, defaultRegion⟩

/-! ### Identifier classifier: the awsclient regular expressions -/

/-- Consume a literal from the front of a character list. -/
def stripLit : List Char → List Char → Option (List Char)
  | [], s => some s
  | _, [] => none
  | p :: ps, c :: cs => if c = p then stripLit ps cs else none

/-- Consume a region code, the inline piece of arnRegex:
two lowercase letters, a hyphen, one or more lowercase letters, a hyphen,
and a run of one to three digits; returns the remainder. -/
def arnRegionAfter (s : List Char) : Option (List Char) :=
  match s with
  | a :: b :: c3 :: r =>
    if isLowerAZ a && isLowerAZ b && c3 = '-' then
      let low := r.takeWhile isLowerAZ
      let r1 := r.dropWhile isLowerAZ
      if low.isEmpty then none
      else
        match r1 with
        | d :: r2 =>
          if d = '-' then
            let ds := r2.takeWhile isDigit09
            let r3 := r2.dropWhile isDigit09
            if 1 ≤ ds.length && ds.length ≤ 3 then some r3 else none
          else none
        | [] => none
    else none
  | _ => none

/-- arnRegex: full anchored match of
arn:aws:secretsmanager:region:twelve-digit-account:secret:name. -/
def arnMatch (s : List Char) : Bool :=
  match stripLit "arn:aws:secretsmanager:".data s with
  | none => false
  | some r1 =>
    match arnRegionAfter r1 with
    | none => false
    | some r2 =>
      match r2 with
      | c :: r3 =>
        c = ':' &&
          (let ds := r3.takeWhile isDigit09
           let r4 := r3.dropWhile isDigit09
           ds.length = 12 &&
             (match r4 with
              | d :: r5 =>
                d = ':' &&
                  (match stripLit "secret:".data r5 with
                   | some r6 => !r6.isEmpty && r6.all arnNameChar
                   | none => false)
              | [] => false))
      | [] => false

/-- nameRegex: an anchored run of 1 to 512 characters of the name class. -/
def nameMatch (s : List Char) : Bool :=
  1 ≤ s.length && s.length ≤ 512 && s.all nameClassC

/-- nameRestrictionRegex: the string ends in a hyphen followed by exactly
six alphanumerics. -/
def restrictionMatch (s : List Char) : Bool :=
  match s.reverse with
  | a1 :: a2 :: a3 :: a4 :: a5 :: a6 :: h :: _ =>
    isAlnumC a1 && isAlnumC a2 && isAlnumC a3 && isAlnumC a4 && isAlnumC a5 &&
      isAlnumC a6 && h = '-'
  | _ => false

/-- isValidSecretIdentifier of awsclient. -/
def isValidSecretIdentifier (identifier : String) : Bool :=
  if identifier = "" then false
  else
    arnMatch identifier.data ||
      (nameMatch identifier.data && !restrictionMatch identifier.data)

/-- One attempt of regionRegex at the current position: the literal
secretsmanager: followed by a region code; the capture takes at most three
digits (greedy repetition of one to three). -/
def regionAt (s : List Char) : Option (List Char) :=
  match stripLit "secretsmanager:".data s with
  | none => none
  | some r =>
    match r with
    | a :: b :: c3 :: r1 =>
      if isLowerAZ a && isLowerAZ b && c3 = '-' then
        let low := r1.takeWhile isLowerAZ
        let r2 := r1.dropWhile isLowerAZ
        if low.isEmpty then none
        else
          match r2 with
          | d :: r3 =>
            if d = '-' then
              let ds := r3.takeWhile isDigit09
              if ds.isEmpty then none
              else some (a :: b :: '-' :: (low ++ '-' :: ds.take 3))
            else none
          | [] => none
      else none
    | _ => none

/-- Leftmost search of regionRegex over the whole string. -/
def findRegion : List Char → Option (List Char)
  | [] => none
  | c :: rest =>
    match regionAt (c :: rest) with
    | some reg => some reg
    | none => findRegion rest

/-- getRegionFromIdentifier of awsclient. -/
def getRegionFromIdentifier (c : Client) (identifier : String) : String :=
  match findRegion identifier.data with
  | some reg => String.mk reg
  | none => c.defaultRegion

/-! ### Resolution cache and resolver (awsclient)

Each function returns none when the Go code would panic; otherwise it
returns the result pair, the updated client and the list of collaborator
interactions it performed. -/

/-- getSession of awsclient.  On a cache miss it builds the session options
(shared config discovery when the region is empty, explicit region
otherwise), calls the SDK, wraps a construction error, then unconditionally
dereferences the session pointer for the credentials round trip — a nil
session at that point is a panic, modelled as none.  A credentials failure
overwrites the stored error. -/
def getSession (env : AwsEnv) (c : Client) (region : String) :
    Option ((Option Session × Option GoError) × Client × List Ev) :=
  match lookupA c.sessions region with
  | some ci => some ((ci.item, ci.err), c, [])
  | none =>
    let opts :=
      if region = "" then SessionOptions.sharedConfig c.profile
      else SessionOptions.withRegion c.profile region
    let res := env.newSessionWithOptions opts
    let wrapped : Option GoError :=
      match res.2 with
      | some e => some (GoError.sessionCreate region e)
      | none => none
    match res.1 with
    | none => none
    | some s =>
      let finalErr : Option GoError :=
        match env.credentialsGet s with
        | some e => some (GoError.badCredentials c.profile e)
        | none => wrapped
      let ci : CacheItem (Option Session) := ⟨some s, finalErr⟩
      some ((ci.item, ci.err),
        { c with sessions := c.sessions ++ [(region, ci)] },
        [Ev.estSession opts, Ev.credsGet])

/-- getService of awsclient: cache-backed; on a miss it consults the
session table, wraps a session error, otherwise wraps the session into a
secretsmanager handle. -/
def getService (env : AwsEnv) (c : Client) (region : String) :
    Option ((Option SecretsManager × Option GoError) × Client × List Ev) :=
  match lookupA c.services region with
  | some ci => some ((ci.item, ci.err), c, [])
  | none =>
    match getSession env c region with
    | none => none
    | some (sres, c1, evs) =>
      match sres.2 with
      | some e =>
        let ci : CacheItem (Option SecretsManager) :=
          ⟨none, some (GoError.serviceWrap e)⟩
        some ((ci.item, ci.err),
          { c1 with services := c1.services ++ [(region, ci)] }, evs)
      | none =>
        match sres.1 with
        | none => none
        | some s =>
          let ci : CacheItem (Option SecretsManager) := ⟨some ⟨s⟩, none⟩
          some ((ci.item, ci.err),
            { c1 with services := c1.services ++ [(region, ci)] },
            evs ++ [Ev.newSvc])

/-- GetSecret of awsclient: rejects invalid identifiers before touching any
state; otherwise cache-backed on the secret table; on a miss it derives the
region, obtains the service handle and issues the provider call.  A present
SecretString is stored as the value (its error stays nil); an absent one is
stored as a SecretNotText or fetch error. -/
def GetSecret (env : AwsEnv) (c : Client) (identifier : String) :
    Option ((String × Option GoError) × Client × List Ev) :=
  if isValidSecretIdentifier identifier = false then
    some (("", some (GoError.invalidIdentifier identifier)), c, [])
  else
    match lookupA c.secrets identifier with
    | some ci => some ((ci.item, ci.err), c, [])
    | none =>
      let secretRegion := getRegionFromIdentifier c identifier
      match getService env c secretRegion with
      | none => none
      | some (sres, c1, evs) =>
        match sres.2 with
        | some e =>
          let ci : CacheItem String := ⟨"", some (GoError.secretWrap e)⟩
          some ((ci.item, ci.err),
            { c1 with secrets := c1.secrets ++ [(identifier, ci)] }, evs)
        | none =>
          match sres.1 with
          | none => none
          | some sm =>
            let fres := env.getSecretValue sm identifier
            let ci : CacheItem String :=
              match fres.1 with
              | some s => ⟨s, none⟩
              | none =>
                match fres.2 with
                | none => ⟨"", some (GoError.secretNotText identifier)⟩
                | some f => ⟨"", some (GoError.secretFetch identifier f)⟩
            some ((ci.item, ci.err),
              { c1 with secrets := c1.secrets ++ [(identifier, ci)] },
              evs ++ [Ev.fetch identifier])

/-- A run: a sequence of GetSecret calls against one client, as the
substitution engine performs while processing one file. -/
def runCalls (env : AwsEnv) : Client → List String → Option Client
  | c, [] => some c
  | c, j :: js =>
    match GetSecret env c j with
    | none => none
    | some (_, c1, _) => runCalls env c1 js

/-! ### Substitution engine (main.go) -/

/-- commentRegex: the line, after leading whitespace, starts with a hash, a
slash or a star. -/
def commentMatch (line : String) : Bool :=
  match line.data.dropWhile isSpaceGo with
  | c :: _ => c = '#' || c = '/' || c = '*'
  | [] => false

/-- The capture group of envVarRegex starting at the head of s, which is
known to be in the first character class; the group is greedy and an
optional closing brace is consumed after it.  Returns the consumed text,
the captured group and the remainder. -/
def envGroupFrom : List Char → Option (List Char × List Char × List Char)
  | [] => none
  | c :: rest =>
    let run := rest.takeWhile envClass2
    let rest1 := rest.dropWhile envClass2
    let g := c :: run
    match rest1 with
    | d :: rest2 => if d = '}' then some (g ++ ['}'], g, rest2) else some (g, g, rest1)
    | [] => some (g, g, [])

/-- The part of envVarRegex after the mandatory dollar: an optional opening
brace, the capture group, an optional closing brace.  The opening brace is
taken greedily; if the character after it cannot start the group, the
engine backtracks and the brace itself starts the group (it is in the first
character class). -/
def envDollarTail (s : List Char) : Option (List Char × List Char × List Char) :=
  match s with
  | [] => none
  | c :: rest =>
    if c = '{' then
      match rest with
      | c2 :: _ =>
        if envClass1 c2 then
          (envGroupFrom rest).map (fun t => ('{' :: t.1, t.2.1, t.2.2))
        else envGroupFrom (c :: rest)
      | [] => envGroupFrom (c :: rest)
    else if envClass1 c then envGroupFrom (c :: rest)
    else none

/-- envVarRegex anchored at the current position: an optional opening brace
(which must be followed by the dollar), the dollar, then the tail. -/
def envMatchAt (s : List Char) : Option (List Char × List Char × List Char) :=
  match s with
  | [] => none
  | c :: rest =>
    if c = '$' then (envDollarTail rest).map (fun t => ('$' :: t.1, t.2.1, t.2.2))
    else if c = '{' then
      match rest with
      | c2 :: rest2 =>
        if c2 = '$' then
          (envDollarTail rest2).map (fun t => ('{' :: '$' :: t.1, t.2.1, t.2.2))
        else none
      | [] => none
    else none

/-- The environment pass: ReplaceAllStringFunc with envVarRegex, replacing
a match by the value of the variable named by the capture group when that
value is non-empty and keeping the matched text otherwise.  Fuel bounds the
scan; it is called with the length of the text, and every step consumes at
least one character. -/
def envScanF (osEnv : String → String) : Nat → List Char → List Char
  | _, [] => []
  | 0, s => s
  | n + 1, c :: rest =>
    match envMatchAt (c :: rest) with
    | none => c :: envScanF osEnv n rest
    | some (full, g, r) =>
      let v := osEnv (String.mk g)
      (if v = "" then full else v.data) ++ envScanF osEnv n r

/-- The identifier group of placeholderRegex with its optional bracketed
sub-key and closing brace(s), starting at body whose head is known to be in
the identifier class.  Returns the consumed text after the lead, the
identifier, the sub-key (empty when absent, as Go reports an unmatched
group) and the remainder. -/
def phAfterLead (body : List Char) :
    Option (List Char × List Char × List Char × List Char) :=
  match body with
  | [] => none
  | b :: brest =>
    let run := brest.takeWhile phClassC
    let after1 := brest.dropWhile phClassC
    let id := b :: run
    let sub :=
      match after1 with
      | '[' :: a2 =>
        let w := a2.takeWhile isWordC
        let a3 := a2.dropWhile isWordC
        if w.isEmpty then none
        else
          match a3 with
          | ']' :: a4 => some (w, a4)
          | _ => none
      | _ => none
    match sub with
    | some (w, a4) =>
      (match a4 with
       | '}' :: '}' :: r => some (id ++ '[' :: w ++ [']'] ++ ['}', '}'], id, w, r)
       | '}' :: r => some (id ++ '[' :: w ++ [']'] ++ ['}'], id, w, r)
       | _ => none)
    | none =>
      (match after1 with
       | '}' :: '}' :: r => some (id ++ ['}', '}'], id, [], r)
       | '}' :: r => some (id ++ ['}'], id, [], r)
       | _ => none)

/-- placeholderRegex anchored at the current position: an opening brace, an
optional second brace (taken when present — the identifier class cannot
start with a brace, so not taking it can never succeed), then the rest of
the pattern. -/
def phMatchAt (s : List Char) :
    Option (List Char × List Char × List Char × List Char) :=
  match s with
  | [] => none
  | c :: rest =>
    if c = '{' then
      match rest with
      | c2 :: rest2 =>
        if c2 = '{' then
          (phAfterLead rest2).map
            (fun t => ('{' :: '{' :: t.1, t.2.1, t.2.2.1, t.2.2.2))
        else
          (phAfterLead rest).map
            (fun t => ('{' :: t.1, t.2.1, t.2.2.1, t.2.2.2))
      | [] => none
    else none

/-! ### The flat JSON object parser (encoding/json at the interface
boundary: Unmarshal into a map from string to string; any syntax error,
non-string value or trailing text is a failure) -/

def isJsonWs (c : Char) : Bool := c = ' ' || c = '\t' || c = '\n' || c = '\r'

def isHexDigit (c : Char) : Bool :=
  isDigit09 c || ('a' ≤ c && c ≤ 'f') || ('A' ≤ c && c ≤ 'F')

def hexVal (c : Char) : Nat :=
  if isDigit09 c then c.toNat - '0'.toNat
  else if 'a' ≤ c && c ≤ 'f' then c.toNat - 'a'.toNat + 10
  else c.toNat - 'A'.toNat + 10

/-- Body of a JSON string after the opening quote. -/
def parseJStrBody : List Char → List Char → Option (String × List Char)
  | [], _ => none
  | '"' :: r, acc => some (String.mk acc.reverse, r)
  | '\\' :: e :: r, acc =>
    if e = '"' then parseJStrBody r ('"' :: acc)
    else if e = '\\' then parseJStrBody r ('\\' :: acc)
    else if e = '/' then parseJStrBody r ('/' :: acc)
    else if e = 'n' then parseJStrBody r ('\n' :: acc)
    else if e = 't' then parseJStrBody r ('\t' :: acc)
    else if e = 'r' then parseJStrBody r ('\r' :: acc)
    else if e = 'b' then parseJStrBody r ('\x08' :: acc)
    else if e = 'f' then parseJStrBody r ('\x0c' :: acc)
    else if e = 'u' then
      match r with
      | h1 :: h2 :: h3 :: h4 :: r2 =>
        if isHexDigit h1 && isHexDigit h2 && isHexDigit h3 && isHexDigit h4 then
          let n := ((hexVal h1 * 16 + hexVal h2) * 16 + hexVal h3) * 16 + hexVal h4
          if h : n.isValidChar then parseJStrBody r2 (Char.ofNatAux n h :: acc)
          else none
        else none
      | _ => none
    else none
  | '\\' :: [], _ => none
  | c :: r, acc => if c.toNat < 32 then none else parseJStrBody r (c :: acc)

def parseJString (s : List Char) : Option (String × List Char) :=
  match s with
  | '"' :: r => parseJStrBody r []
  | _ => none

/-- Insert with Go map semantics: a later duplicate key overwrites. -/
def insertR : List (String × String) → String → String → List (String × String)
  | [], k, v => [(k, v)]
  | (k1, v1) :: t, k, v =>
    if k1 = k then (k, v) :: t else (k1, v1) :: insertR t k v

/-- The members of a JSON object, positioned at the start of a key. -/
def parsePairs : Nat → List Char → List (String × String) →
    Option (List (String × String) × List Char)
  | 0, _, _ => none
  | n + 1, s, acc =>
    match parseJString s with
    | none => none
    | some (k, r1) =>
      match (r1.dropWhile isJsonWs) with
      | ':' :: r2 =>
        match parseJString (r2.dropWhile isJsonWs) with
        | none => none
        | some (v, r3) =>
          match (r3.dropWhile isJsonWs) with
          | ',' :: r4 => parsePairs n (r4.dropWhile isJsonWs) (insertR acc k v)
          | '}' :: r4 => some (insertR acc k v, r4)
          | _ => none
      | _ => none

/-- json.Unmarshal of a flat string-to-string object. -/
def parseFlatJson (v : String) : Option (List (String × String)) :=
  match v.data.dropWhile isJsonWs with
  | '{' :: r =>
    match r.dropWhile isJsonWs with
    | '}' :: r2 => if (r2.dropWhile isJsonWs).isEmpty then some [] else none
    | r1 =>
      match parsePairs r1.length r1 [] with
      | some (m, rest) =>
        if (rest.dropWhile isJsonWs).isEmpty then some m else none
      | none => none
  | _ => none

/-! ### The secret pass and line processing -/

/-- The replacement decision for one placeholder match, given the GetSecret
result: the replacement text, the failure increment and the log events
emitted.  An error keeps the placeholder, counts one failure and logs it; a
non-empty value is substituted directly or projected through the sub-key; an
empty value keeps the placeholder silently. -/
def secretStep (res : String × Option GoError) (sub full : List Char) :
    List Char × Nat × List Ev :=
  match res.2 with
  | some err => (full, 1, [Ev.logErr err])
  | none =>
    if res.1 = "" then (full, 0, [])
    else if sub.isEmpty then (res.1.data, 0, [])
    else
      match parseFlatJson res.1 with
      | some m =>
        match lookupA m (String.mk sub) with
        | some v => (v.data, 0, [])
        | none => (full, 1, [Ev.logKeyMissing (String.mk sub)])
      | none => (full, 1, [Ev.logJsonErr])

/-- The secret pass: ReplaceAllStringFunc with placeholderRegex.  For each
match the identifier is resolved through GetSecret; an error counts one
failure and is logged, keeping the placeholder; a non-empty value is
substituted directly or projected through the sub-key; an empty value
keeps the placeholder silently. -/
def secretScanF (env : AwsEnv) : Nat → Client → List Char →
    Option (List Char × Client × Nat × List Ev)
  | _, cl, [] => some ([], cl, 0, [])
  | 0, cl, s => some (s, cl, 0, [])
  | n + 1, cl, c :: rest =>
    match phMatchAt (c :: rest) with
    | none =>
      match secretScanF env n cl rest with
      | none => none
      | some (out, cl2, f, evs) => some (c :: out, cl2, f, evs)
    | some (full, id, sub, r) =>
      match GetSecret env cl (String.mk id) with
      | none => none
      | some (res, cl1, evs1) =>
        let step := secretStep res sub full
        match secretScanF env n cl1 r with
        | none => none
        | some (out, cl2, f, evs3) =>
          some (step.1 ++ out, cl2, step.2.1 + f, evs1 ++ step.2.2 ++ evs3)

/-- The environment pass over a whole line. -/
def envPassL (osEnv : String → String) (l : List Char) : List Char :=
  envScanF osEnv l.length l

/-- The secret pass over a whole line. -/
def secretPass (env : AwsEnv) (cl : Client) (line : String) :
    Option (String × Client × Nat × List Ev) :=
  match secretScanF env line.data.length cl line.data with
  | none => none
  | some (out, cl2, f, evs) => some (String.mk out, cl2, f, evs)

/-- One iteration of the scanner loop in processTemplateFile: comment lines
pass through untouched; other lines get the environment pass and then the
secret pass over its result. -/
def processLine (osEnv : String → String) (env : AwsEnv) (cl : Client)
    (line : String) : Option (String × Client × Nat × List Ev) :=
  if commentMatch line then some (line, cl, 0, [])
  else
    let l1 := envPassL osEnv line.data
    match secretScanF env l1.length cl l1 with
    | none => none
    | some (out, cl2, f, evs) => some (String.mk out, cl2, f, evs)

/-! ### The buffered writer and the whole file pass -/

/-- bufio.Writer at its interface boundary: written data accumulates in the
buffer and reaches the file only on an explicit flush or when a write does
not fit into the remaining buffer space. -/
structure BufW where
  fileBytes : List Char
  buf : List Char
  cap : Nat
deriving DecidableEq

def newBufW (cap : Nat) : BufW := ⟨[], [], cap⟩

def bflush (w : BufW) : BufW := ⟨w.fileBytes ++ w.buf, [], w.cap⟩

def bwrite (w : BufW) (data : List Char) : BufW :=
  if w.buf.length + data.length ≤ w.cap then
    ⟨w.fileBytes, w.buf ++ data, w.cap⟩
  else if data.length ≤ w.cap then
    ⟨w.fileBytes ++ w.buf, data, w.cap⟩
  else
    ⟨w.fileBytes ++ w.buf ++ data, [], w.cap⟩

/-- fmt.Fprintln on the buffered writer. -/
def fprintln (w : BufW) (line : String) : BufW :=
  bwrite w (line.data ++ ['\n'])

/-- The scanner loop of processTemplateFile. -/
def processLinesLoop (osEnv : String → String) (env : AwsEnv) :
    Client → BufW → Nat → List String → Option (Client × BufW × Nat)
  | cl, w, failed, [] => some (cl, w, failed)
  | cl, w, failed, l :: ls =>
    match processLine osEnv env cl l with
    | none => none
    | some (out, cl1, d, _) =>
      processLinesLoop osEnv env cl1 (fprintln w out) (failed + d) ls

/-- processTemplateFile of main.go, with the input file already read into
lines and I/O assumed healthy: builds a fresh client and a buffered writer
with the default 4096-byte buffer, processes every line, and afterwards —
before ever flushing the writer — returns the aggregate failure when the
failure counter is positive; only the success path flushes.  The result is
the error outcome (none meaning success) paired with the bytes that
actually reached the output file. -/
def processTemplateFile (osEnv : String → String) (env : AwsEnv)
    (profile region : String) (inputLines : List String) :
    Option (Option GoError × List Char) :=
  match processLinesLoop osEnv env (NewAWSClient profile region)
      (newBufW 4096) 0 inputLines with
  | none => none
  | some (_, w, failed) =>
    if failed > 0 then some (some (GoError.aggregateFailed failed), w.fileBytes)
    else some (none, (bflush w).fileBytes)

/-! ### Concrete collaborator environments used by the witnesses -/

/-- Provider where session and credentials succeed but every fetch returns
neither a textual payload nor an error. -/
def envStub : AwsEnv :=
  ⟨fun _ => (some 0, none), fun _ => none, fun _ _ => (none, none)⟩

/-- Provider whose fetches return a present but empty textual payload. -/
def envEmptyPayload : AwsEnv :=
  ⟨fun _ => (some 0, none), fun _ => none, fun _ _ => (some "", none)⟩

/-- Provider where session construction fails and, as the Go SDK does on
failure, returns a nil session pointer alongside the error. -/
def envNilSession : AwsEnv :=
  ⟨fun _ => (none, some "NoCredentialProviders"), fun _ => none,
    fun _ _ => (none, none)⟩

/-- An empty process environment. -/
def osEnvNone : String → String := fun _ => ""

/-- A process environment where only VAR is set, to hello. -/
def osEnvHello : String → String := fun s => if s = "VAR" then "hello" else ""

/-- The NAME shape of the specification for environment placeholders: a
letter or underscore followed by word characters. -/
def validEnvNameB : List Char → Bool
  | [] => false
  | c :: rest => (isAlphaAZ c || c = '_') && rest.all envClass2

/-- A piece of text in which no environment placeholder can start. -/
def noDollarBraceB (l : List Char) : Bool :=
  l.all (fun ch => !(ch = '$' || ch = '{'))

/-- The flat JSON object value of the specification example. -/
def jsonUserPass : String := "\x7b\"user\":\"alice\",\"pass\":\"s3cr3t\"\x7d"

/-! ### Basic lemmas about the association lists -/

theorem lookupA_append_left {α : Type} (l l2 : List (String × α)) (k : String)
    (v : α) (h : lookupA l k = some v) : lookupA (l ++ l2) k = some v := by
  induction l with
  | nil => simp [lookupA] at h
  | cons p t ih =>
    obtain ⟨k1, v1⟩ := p
    by_cases hk : k1 = k
    · simp [lookupA, hk] at h ⊢; exact h
    · simp only [List.cons_append, lookupA, if_neg hk] at h ⊢
      exact ih h

theorem lookupA_append_self {α : Type} (l : List (String × α)) (k : String)
    (v : α) (h : lookupA l k = none) : lookupA (l ++ [(k, v)]) k = some v := by
  induction l with
  | nil => simp [lookupA]
  | cons p t ih =>
    obtain ⟨k1, v1⟩ := p
    by_cases hk : k1 = k
    · simp [lookupA, hk] at h
    · simp only [List.cons_append, lookupA, if_neg hk] at h ⊢
      exact ih h

/-! ### The cache tables are append-only and GetSecret memoizes -/

theorem getSession_secrets (env : AwsEnv) (c : Client) (region : String)
    (x : Option Session × Option GoError) (c1 : Client) (evs : List Ev)
    (h : getSession env c region = some (x, c1, evs)) : c1.secrets = c.secrets := by
  unfold getSession at h
  split at h
  · simp only [Option.some.injEq, Prod.mk.injEq] at h
    rw [← h.2.1]
  · split at h
    all_goals
      dsimp only at h
      split at h
      · exact absurd h (by simp)
      · simp only [Option.some.injEq, Prod.mk.injEq] at h
        rw [← h.2.1]

theorem getService_secrets (env : AwsEnv) (c : Client) (region : String)
    (x : Option SecretsManager × Option GoError) (c1 : Client) (evs : List Ev)
    (h : getService env c region = some (x, c1, evs)) : c1.secrets = c.secrets := by
  unfold getService at h
  split at h
  · simp only [Option.some.injEq, Prod.mk.injEq] at h
    rw [← h.2.1]
  · split at h
    · exact absurd h (by simp)
    · rename_i sres c2 evs2 heq
      have hsec := getSession_secrets env c region sres c2 evs2 heq
      split at h
      · simp only [Option.some.injEq, Prod.mk.injEq] at h
        rw [← h.2.1]; exact hsec
      · split at h
        · exact absurd h (by simp)
        · simp only [Option.some.injEq, Prod.mk.injEq] at h
          rw [← h.2.1]; exact hsec

/-- GetSecret on an identifier that fails validation: the error is
returned at once, the client is untouched, nothing is contacted. -/
theorem getSecret_invalid_eq (env : AwsEnv) (c : Client) (s : String)
    (h : isValidSecretIdentifier s = false) :
    GetSecret env c s = some (("", some (GoError.invalidIdentifier s)), c, []) := by
  simp [GetSecret, h]

/-- GetSecret on a cache hit returns the stored entry, changes nothing and
performs no collaborator interaction. -/
theorem getSecret_cached_hit (env : AwsEnv) (c : Client) (i : String)
    (ci : CacheItem String) (hv : isValidSecretIdentifier i = true)
    (hl : lookupA c.secrets i = some ci) :
    GetSecret env c i = some ((ci.item, ci.err), c, []) := by
  simp [GetSecret, hv, hl]

/-- Any GetSecret call preserves every existing entry of the secret table. -/
theorem getSecret_secrets_mono (env : AwsEnv) (c : Client) (j : String)
    (x : String × Option GoError) (c1 : Client) (evs : List Ev) (i : String)
    (ci : CacheItem String)
    (h : GetSecret env c j = some (x, c1, evs))
    (hl : lookupA c.secrets i = some ci) : lookupA c1.secrets i = some ci := by
  unfold GetSecret at h
  split at h
  · simp only [Option.some.injEq, Prod.mk.injEq] at h
    rw [← h.2.1]; exact hl
  · split at h
    · simp only [Option.some.injEq, Prod.mk.injEq] at h
      rw [← h.2.1]; exact hl
    · dsimp only at h
      split at h
      · exact absurd h (by simp)
      · rename_i sres c2 evs2 heq
        have hsec := getService_secrets env c _ sres c2 evs2 heq
        split at h
        · simp only [Option.some.injEq, Prod.mk.injEq] at h
          rw [← h.2.1]
          simp only []
          rw [hsec]
          exact lookupA_append_left _ _ _ _ hl
        · split at h
          · exact absurd h (by simp)
          · simp only [Option.some.injEq, Prod.mk.injEq] at h
            rw [← h.2.1]
            simp only []
            rw [hsec]
            exact lookupA_append_left _ _ _ _ hl

/-- After a GetSecret call on a valid identifier, the secret table holds
exactly the returned outcome under that identifier. -/
theorem getSecret_caches (env : AwsEnv) (c : Client) (i : String)
    (r : String × Option GoError) (c1 : Client) (evs : List Ev)
    (h : GetSecret env c i = some (r, c1, evs))
    (hv : isValidSecretIdentifier i = true) :
    lookupA c1.secrets i = some ⟨r.1, r.2⟩ := by
  unfold GetSecret at h
  rw [hv] at h
  simp only [Bool.true_eq_false, if_false] at h
  split at h
  · rename_i ci hci
    simp only [Option.some.injEq, Prod.mk.injEq] at h
    rw [← h.2.1, ← h.1]
    exact hci
  · rename_i hci
    split at h
    · exact absurd h (by simp)
    · rename_i sres c2 evs2 heq
      have hsec := getService_secrets env c _ sres c2 evs2 heq
      split at h
      · simp only [Option.some.injEq, Prod.mk.injEq] at h
        rw [← h.2.1, ← h.1]
        simp only []
        rw [hsec]
        exact lookupA_append_self _ _ _ hci
      · split at h
        · exact absurd h (by simp)
        · simp only [Option.some.injEq, Prod.mk.injEq] at h
          rw [← h.2.1, ← h.1]
          simp only []
          rw [hsec]
          exact lookupA_append_self _ _ _ hci

theorem runCalls_secrets_mono (env : AwsEnv) (js : List String) (c c2 : Client)
    (i : String) (ci : CacheItem String)
    (h : runCalls env c js = some c2)
    (hl : lookupA c.secrets i = some ci) : lookupA c2.secrets i = some ci := by
  induction js generalizing c with
  | nil =>
    simp only [runCalls, Option.some.injEq] at h
    rw [← h]; exact hl
  | cons j js ih =>
    unfold runCalls at h
    split at h
    · exact absurd h (by simp)
    · rename_i x c1 evs heq
      exact ih c1 h (getSecret_secrets_mono env c j x c1 evs i ci heq hl)

/-! ### Claim theorems -/

/-- C1: once GetSecret(i) has been invoked once in a run, every subsequent
call GetSecret(i) in the same run — after any number of intermediate calls —
returns exactly the outcome of the first call, leaves the client unchanged
and performs no collaborator interaction at all: no provider fetch, no
session or service construction, whether the first outcome was a success or
a failure. -/
theorem getSecret_at_most_once (env : AwsEnv) (c : Client) (i : String)
    (r1 : String × Option GoError) (c1 : Client) (ev1 : List Ev)
    (js : List String) (c2 : Client)
    (h1 : GetSecret env c i = some (r1, c1, ev1))
    (h2 : runCalls env c1 js = some c2) :
    GetSecret env c2 i = some (r1, c2, []) := by
  cases hv : isValidSecretIdentifier i with
  | true =>
    have hc := getSecret_caches env c i r1 c1 ev1 h1 hv
    have hc2 := runCalls_secrets_mono env js c1 c2 i ⟨r1.1, r1.2⟩ h2 hc
    have hres := getSecret_cached_hit env c2 i ⟨r1.1, r1.2⟩ hv hc2
    simpa using hres
  | false =>
    rw [getSecret_invalid_eq env c i hv] at h1
    simp only [Option.some.injEq, Prod.mk.injEq] at h1
    rw [getSecret_invalid_eq env c2 i hv, h1.1]

/-- C1 witness: a concrete first call (which misses the cache, resolves and
caches a failure) followed by an empty run; the repeated call returns the
cached outcome without any collaborator event. -/
theorem getSecret_at_most_once_witness :
    GetSecret envStub
      { sessions := [("", ⟨some 0, none⟩)],
        services := [("", ⟨some ⟨0⟩, none⟩)],
        secrets := [("mysecret", ⟨"", some (GoError.secretNotText "mysecret")⟩)],
        profile := "p", defaultRegion := "" } "mysecret" =
      some (("", some (GoError.secretNotText "mysecret")),
        { sessions := [("", ⟨some 0, none⟩)],
          services := [("", ⟨some ⟨0⟩, none⟩)],
          secrets := [("mysecret", ⟨"", some (GoError.secretNotText "mysecret")⟩)],
          profile := "p", defaultRegion := "" }, []) :=
  getSecret_at_most_once envStub (NewAWSClient "p" "") "mysecret"
    ("", some (GoError.secretNotText "mysecret"))
    { sessions := [("", ⟨some 0, none⟩)],
      services := [("", ⟨some ⟨0⟩, none⟩)],
      secrets := [("mysecret", ⟨"", some (GoError.secretNotText "mysecret")⟩)],
      profile := "p", defaultRegion := "" }
    [Ev.estSession (SessionOptions.sharedConfig "p"), Ev.credsGet, Ev.newSvc,
      Ev.fetch "mysecret"]
    []
    { sessions := [("", ⟨some 0, none⟩)],
      services := [("", ⟨some ⟨0⟩, none⟩)],
      secrets := [("mysecret", ⟨"", some (GoError.secretNotText "mysecret")⟩)],
      profile := "p", defaultRegion := "" }
    (by decide) (by decide)

/-- C4: an identifier that fails validation is rejected at once with the
InvalidIdentifier error; the client — all three cache tables — is returned
unchanged and no collaborator interaction happens. -/
theorem getSecret_invalid_rejected (env : AwsEnv) (c : Client) (s : String)
    (h : isValidSecretIdentifier s = false) :
    GetSecret env c s = some (("", some (GoError.invalidIdentifier s)), c, []) :=
  getSecret_invalid_eq env c s h

/-- C4 witness at the empty identifier against a fresh client. -/
theorem getSecret_invalid_rejected_witness :
    GetSecret envStub (NewAWSClient "p" "") "" =
      some (("", some (GoError.invalidIdentifier "")), NewAWSClient "p" "", []) :=
  getSecret_invalid_rejected envStub (NewAWSClient "p" "") "" (by decide)

/-- C6 (refuting the no-fault claim): when session construction fails the
SDK returns a nil session together with the error, and getSession
dereferences that nil session for its credentials check — a panic, not a
returned error value.  The fault propagates through GetSecret. -/
theorem getSession_nil_session_fault :
    getSession envNilSession (NewAWSClient "default" "") "" = none ∧
    GetSecret envNilSession (NewAWSClient "default" "") "mysecret" = none :=
  ⟨by decide, by decide⟩

/-- C2 (refuting the complete-output claim): one input line whose single
placeholder fails to resolve yields the aggregate failure naming count 1,
but the output file is empty — the failure return happens before the
buffered writer is ever flushed, so the processed line never reaches the
file. -/
theorem processTemplateFile_failure_skips_flush :
    processTemplateFile osEnvNone envStub "default" "" ["{mysecret}"] =
      some (some (GoError.aggregateFailed 1), []) ∧
    "{mysecret}\n".data ≠ ([] : List Char) :=
  ⟨by decide, by decide⟩

/-- C3 counterexample: a provider fetch that completes with a present but
empty textual payload makes GetSecret return success with the empty string
— no SecretNotText error — contradicting the claim that a present-but-empty
payload is an error and that an empty-string success is impossible. -/
theorem getSecret_empty_payload_success :
    (GetSecret envEmptyPayload (NewAWSClient "default" "") "mysecret").map
      (fun r => r.1) = some ("", none) := by decide

/-- C8: a line whose first character after leading whitespace is a hash,
slash or star passes through byte-for-byte: no substitution, no client
change, no failure count, no collaborator interaction. -/
theorem comment_passthrough (osEnv : String → String) (env : AwsEnv)
    (cl : Client) (line : String) (h : commentMatch line = true) :
    processLine osEnv env cl line = some (line, cl, 0, []) := by
  simp [processLine, h]

/-- C8 witness: a comment line containing placeholder-shaped text. -/
theorem comment_passthrough_witness :
    processLine osEnvHello envStub (NewAWSClient "p" "") "  # user=${VAR} {mysecret}" =
      some ("  # user=${VAR} {mysecret}", NewAWSClient "p" "", 0, []) :=
  comment_passthrough osEnvHello envStub (NewAWSClient "p" "")
    "  # user=${VAR} {mysecret}" (by decide)

/-- C3 as amended: for an identifier whose provider fetch completes (valid,
not cached, service obtained), GetSecret returns success exactly when the
payload is a present textual string — including the empty string, which is
returned as an empty-string success — while an absent (non-textual) payload
yields the SecretNotText error when the provider reported no error and a
fetch error otherwise. -/
theorem getSecret_payload_outcome (env : AwsEnv) (c : Client) (i : String)
    (sm : SecretsManager) (c1 : Client) (evs : List Ev)
    (hv : isValidSecretIdentifier i = true)
    (hm : lookupA c.secrets i = none)
    (hs : getService env c (getRegionFromIdentifier c i) =
      some ((some sm, none), c1, evs)) :
    match GetSecret env c i with
    | none => False
    | some (r, _, _) =>
        (r.2 = none ↔ (env.getSecretValue sm i).1 = some r.1) ∧
        ((env.getSecretValue sm i).1 = some "" → r.1 = "" ∧ r.2 = none) ∧
        ((env.getSecretValue sm i).1 = none →
          r.2 = (match (env.getSecretValue sm i).2 with
                 | none => some (GoError.secretNotText i)
                 | some f => some (GoError.secretFetch i f))) := by
  unfold GetSecret
  rw [hv]
  simp only [Bool.true_eq_false, if_false, hm, hs]
  rcases hf : env.getSecretValue sm i with ⟨ss, fe⟩
  cases ss with
  | some s => cases fe <;> simp
  | none => cases fe <;> simp

/-- C3 witness for the amended theorem: the concrete provider returning a
present empty payload, at a fresh client. -/
theorem getSecret_payload_outcome_witness :
    match GetSecret envEmptyPayload (NewAWSClient "default" "") "mysecret" with
    | none => False
    | some (r, _, _) =>
        (r.2 = none ↔
          (envEmptyPayload.getSecretValue ⟨0⟩ "mysecret").1 = some r.1) ∧
        ((envEmptyPayload.getSecretValue ⟨0⟩ "mysecret").1 = some "" →
          r.1 = "" ∧ r.2 = none) ∧
        ((envEmptyPayload.getSecretValue ⟨0⟩ "mysecret").1 = none →
          r.2 = (match (envEmptyPayload.getSecretValue ⟨0⟩ "mysecret").2 with
                 | none => some (GoError.secretNotText "mysecret")
                 | some f => some (GoError.secretFetch "mysecret" f))) :=
  getSecret_payload_outcome envEmptyPayload (NewAWSClient "default" "")
    "mysecret" ⟨0⟩
    { sessions := [("", ⟨some 0, none⟩)],
      services := [("", ⟨some ⟨0⟩, none⟩)],
      secrets := [], profile := "default", defaultRegion := "" }
    [Ev.estSession (SessionOptions.sharedConfig "default"), Ev.credsGet,
      Ev.newSvc]
    (by decide) (by decide) (by decide)

/-! ### Classifier lemmas -/

theorem stripLit_eq (lit : List Char) : ∀ (s r : List Char),
    stripLit lit s = some r → s = lit ++ r := by
  induction lit with
  | nil =>
    intro s r h
    simp only [stripLit, Option.some.injEq] at h
    simp [h]
  | cons p ps ih =>
    intro s r h
    cases s with
    | nil => simp [stripLit] at h
    | cons c cs =>
      by_cases hc : c = p
      · subst hc
        simp only [stripLit, if_pos rfl] at h
        simpa using ih cs r h
      · simp [stripLit, hc] at h

/-- A string all of whose characters lie in the bare-name class cannot
match the ARN pattern: the ARN literal forces a colon, which the name
class excludes. -/
theorem nameMatch_not_arn (s : List Char) (hn : s.all nameClassC = true) :
    arnMatch s = false := by
  cases ha : arnMatch s with
  | false => rfl
  | true =>
    exfalso
    unfold arnMatch at ha
    split at ha
    · exact absurd ha (by simp)
    · rename_i r1 hstrip
      have hse := stripLit_eq _ _ _ hstrip
      have hcolon : (':' : Char) ∈ s := by
        rw [hse]
        exact List.mem_append_left _ (by decide)
      have := List.all_eq_true.mp hn ':' hcolon
      exact absurd this (by decide)

/-- C5: a bare-name identifier (matching the name pattern) that ends in a
hyphen followed by exactly six alphanumerics is rejected, while the full
ARN carrying that same suffix is accepted, and the empty identifier is
always rejected. -/
theorem identifier_validation_boundary (s : String)
    (hn : nameMatch s.data = true) (hr : restrictionMatch s.data = true) :
    isValidSecretIdentifier s = false ∧
    isValidSecretIdentifier
      "arn:aws:secretsmanager:us-east-1:123456789012:secret:my-secret-AbC123" =
      true ∧
    isValidSecretIdentifier "" = false := by
  refine ⟨?_, by decide, by decide⟩
  have hall : s.data.all nameClassC = true := by
    have := hn
    unfold nameMatch at this
    simp only [Bool.and_eq_true] at this
    exact this.2
  have ha := nameMatch_not_arn s.data hall
  unfold isValidSecretIdentifier
  by_cases hs : s = ""
  · simp [hs]
  · simp [hs, ha, hr]

/-- C5 witness at the boundary example from the specification. -/
theorem identifier_validation_boundary_witness :
    isValidSecretIdentifier "my-secret-AbC123" = false ∧
    isValidSecretIdentifier
      "arn:aws:secretsmanager:us-east-1:123456789012:secret:my-secret-AbC123" =
      true ∧
    isValidSecretIdentifier "" = false :=
  identifier_validation_boundary "my-secret-AbC123" (by decide) (by decide)

/-! ### Scanner lemmas for the environment pass -/

theorem takeWhile_append_all (p : Char → Bool) (l r : List Char)
    (h : ∀ c ∈ l, p c = true) :
    (l ++ r).takeWhile p = l ++ r.takeWhile p := by
  induction l with
  | nil => simp
  | cons c t ih =>
    have hc := h c (by simp)
    simp [List.takeWhile_cons, hc, ih (fun x hx => h x (by simp [hx]))]

theorem dropWhile_append_all (p : Char → Bool) (l r : List Char)
    (h : ∀ c ∈ l, p c = true) :
    (l ++ r).dropWhile p = r.dropWhile p := by
  induction l with
  | nil => simp
  | cons c t ih =>
    have hc := h c (by simp)
    simp [List.dropWhile_cons, hc, ih (fun x hx => h x (by simp [hx]))]

theorem takeWhile_all (p : Char → Bool) (l : List Char)
    (h : ∀ c ∈ l, p c = true) : l.takeWhile p = l := by
  simpa using takeWhile_append_all p l [] h

theorem dropWhile_all (p : Char → Bool) (l : List Char)
    (h : ∀ c ∈ l, p c = true) : l.dropWhile p = [] := by
  simpa using dropWhile_append_all p l [] h

theorem envGroupFrom_closed (n1 : Char) (nt : List Char)
    (hnt : ∀ c ∈ nt, envClass2 c = true) :
    envGroupFrom (n1 :: (nt ++ ['}'])) = some (n1 :: nt ++ ['}'], n1 :: nt, []) := by
  simp only [envGroupFrom]
  rw [takeWhile_append_all envClass2 nt ['}'] hnt,
    dropWhile_append_all envClass2 nt ['}'] hnt]
  simp [List.takeWhile, envClass2, isAlphaAZ, isUpperAZ, isLowerAZ, isDigit09]

theorem envGroupFrom_open (n1 : Char) (nt : List Char)
    (hnt : ∀ c ∈ nt, envClass2 c = true) :
    envGroupFrom (n1 :: nt) = some (n1 :: nt, n1 :: nt, []) := by
  simp only [envGroupFrom]
  rw [takeWhile_all envClass2 nt hnt, dropWhile_all envClass2 nt hnt]


theorem name_head_class1 (n1 : Char) (h1 : (isAlphaAZ n1 || n1 = '_') = true) :
    envClass1 n1 = true := by
  have h : isAlphaAZ n1 = true ∨ n1 = '_' := by simpa using h1
  rcases h with h | h <;> simp [envClass1, h]

theorem name_head_ne_brace (n1 : Char) (h1 : (isAlphaAZ n1 || n1 = '_') = true) :
    n1 ≠ '{' := by
  intro h
  subst h
  simp [isAlphaAZ, isUpperAZ, isLowerAZ] at h1

theorem envDollarTail_braced (n1 : Char) (nt : List Char)
    (h1 : (isAlphaAZ n1 || n1 = '_') = true)
    (hnt : ∀ c ∈ nt, envClass2 c = true) :
    envDollarTail ('{' :: n1 :: (nt ++ ['}'])) =
      some ('{' :: n1 :: (nt ++ ['}']), n1 :: nt, []) := by
  have hc1 := name_head_class1 n1 h1
  simp [envDollarTail, hc1, envGroupFrom_closed n1 nt hnt]


theorem envDollarTail_nameBrace (n1 : Char) (nt : List Char)
    (h1 : (isAlphaAZ n1 || n1 = '_') = true)
    (hnt : ∀ c ∈ nt, envClass2 c = true) :
    envDollarTail (n1 :: (nt ++ ['}'])) =
      some (n1 :: (nt ++ ['}']), n1 :: nt, []) := by
  have hc1 := name_head_class1 n1 h1
  have hne := name_head_ne_brace n1 h1
  simp [envDollarTail, hc1, hne, envGroupFrom_closed n1 nt hnt]

theorem envDollarTail_bare (n1 : Char) (nt : List Char)
    (h1 : (isAlphaAZ n1 || n1 = '_') = true)
    (hnt : ∀ c ∈ nt, envClass2 c = true) :
    envDollarTail (n1 :: nt) = some (n1 :: nt, n1 :: nt, []) := by
  have hc1 := name_head_class1 n1 h1
  have hne := name_head_ne_brace n1 h1
  simp [envDollarTail, hc1, hne, envGroupFrom_open n1 nt hnt]

theorem envMatchAt_shape1 (N : List Char) (hN : validEnvNameB N = true) :
    envMatchAt ('$' :: '{' :: N ++ ['}']) =
      some ('$' :: '{' :: N ++ ['}'], N, []) := by
  cases N with
  | nil => simp [validEnvNameB] at hN
  | cons n1 nt =>
    simp only [validEnvNameB, Bool.and_eq_true] at hN
    have hnt := List.all_eq_true.mp hN.2
    simp [envMatchAt]
    rw [envDollarTail_braced n1 nt hN.1 hnt]

theorem envMatchAt_shape2 (N : List Char) (hN : validEnvNameB N = true) :
    envMatchAt ('{' :: '$' :: N ++ ['}']) =
      some ('{' :: '$' :: N ++ ['}'], N, []) := by
  cases N with
  | nil => simp [validEnvNameB] at hN
  | cons n1 nt =>
    simp only [validEnvNameB, Bool.and_eq_true] at hN
    have hnt := List.all_eq_true.mp hN.2
    simp [envMatchAt]
    rw [envDollarTail_nameBrace n1 nt hN.1 hnt]

theorem envMatchAt_shape3 (N : List Char) (hN : validEnvNameB N = true) :
    envMatchAt ('$' :: N) = some ('$' :: N, N, []) := by
  cases N with
  | nil => simp [validEnvNameB] at hN
  | cons n1 nt =>
    simp only [validEnvNameB, Bool.and_eq_true] at hN
    have hnt := List.all_eq_true.mp hN.2
    simp [envMatchAt, envDollarTail_bare n1 nt hN.1 hnt]

theorem envMatchAt_none (c : Char) (rest : List Char) (h1 : c ≠ '$')
    (h2 : c ≠ '{') : envMatchAt (c :: rest) = none := by
  simp [envMatchAt, h1, h2]

theorem envScanF_pre (osEnv : String → String) (pre s : List Char)
    (hpre : noDollarBraceB pre = true) :
    envScanF osEnv (pre ++ s).length (pre ++ s) =
      pre ++ envScanF osEnv s.length s := by
  induction pre with
  | nil => simp
  | cons c t ih =>
    simp only [noDollarBraceB, List.all_cons, Bool.and_eq_true] at hpre
    have hc1 : c ≠ '$' ∧ c ≠ '{' := by
      have := hpre.1
      simp only [Bool.not_eq_true', Bool.or_eq_false_iff,
        decide_eq_false_iff_not] at this
      exact this
    have ih2 := ih hpre.2
    simp only [List.cons_append, List.length_cons]
    simp only [envScanF, envMatchAt_none c _ hc1.1 hc1.2]
    rw [ih2]


theorem envScanF_shape1 (osEnv : String → String) (N : List Char)
    (hN : validEnvNameB N = true) :
    envScanF osEnv ('$' :: ('{' :: (N ++ ['}']))).length ('$' :: ('{' :: (N ++ ['}']))) =
      (if osEnv (String.mk N) = "" then '$' :: ('{' :: (N ++ ['}']))
       else (osEnv (String.mk N)).data) := by
  have hm : envMatchAt ('$' :: ('{' :: (N ++ ['}']))) =
      some ('$' :: ('{' :: (N ++ ['}'])), N, []) := by
    have := envMatchAt_shape1 N hN
    simpa using this
  simp only [List.length_cons]
  simp [envScanF, hm]

theorem envScanF_shape2 (osEnv : String → String) (N : List Char)
    (hN : validEnvNameB N = true) :
    envScanF osEnv ('{' :: ('$' :: (N ++ ['}']))).length ('{' :: ('$' :: (N ++ ['}']))) =
      (if osEnv (String.mk N) = "" then '{' :: ('$' :: (N ++ ['}']))
       else (osEnv (String.mk N)).data) := by
  have hm : envMatchAt ('{' :: ('$' :: (N ++ ['}']))) =
      some ('{' :: ('$' :: (N ++ ['}'])), N, []) := by
    have := envMatchAt_shape2 N hN
    simpa using this
  simp only [List.length_cons]
  simp [envScanF, hm]

theorem envScanF_shape3 (osEnv : String → String) (N : List Char)
    (hN : validEnvNameB N = true) :
    envScanF osEnv ('$' :: N).length ('$' :: N) =
      (if osEnv (String.mk N) = "" then '$' :: N
       else (osEnv (String.mk N)).data) := by
  simp only [List.length_cons]
  simp [envScanF, envMatchAt_shape3 N hN]

theorem env_pass_on_placeholder (osEnv : String → String) (pre N : List Char)
    (hpre : noDollarBraceB pre = true) (hN : validEnvNameB N = true) :
    (osEnv (String.mk N) ≠ "" →
      envPassL osEnv (pre ++ ('$' :: ('{' :: (N ++ ['}'])))) =
        pre ++ (osEnv (String.mk N)).data ∧
      envPassL osEnv (pre ++ ('{' :: ('$' :: (N ++ ['}'])))) =
        pre ++ (osEnv (String.mk N)).data ∧
      envPassL osEnv (pre ++ ('$' :: N)) = pre ++ (osEnv (String.mk N)).data) ∧
    (osEnv (String.mk N) = "" →
      envPassL osEnv (pre ++ ('$' :: ('{' :: (N ++ ['}'])))) =
        pre ++ ('$' :: ('{' :: (N ++ ['}']))) ∧
      envPassL osEnv (pre ++ ('{' :: ('$' :: (N ++ ['}'])))) =
        pre ++ ('{' :: ('$' :: (N ++ ['}']))) ∧
      envPassL osEnv (pre ++ ('$' :: N)) = pre ++ ('$' :: N)) := by
  have s1 : envPassL osEnv (pre ++ ('$' :: ('{' :: (N ++ ['}'])))) =
      pre ++ (if osEnv (String.mk N) = "" then '$' :: ('{' :: (N ++ ['}']))
              else (osEnv (String.mk N)).data) := by
    unfold envPassL
    rw [envScanF_pre osEnv pre _ hpre, envScanF_shape1 osEnv N hN]
  have s2 : envPassL osEnv (pre ++ ('{' :: ('$' :: (N ++ ['}'])))) =
      pre ++ (if osEnv (String.mk N) = "" then '{' :: ('$' :: (N ++ ['}']))
              else (osEnv (String.mk N)).data) := by
    unfold envPassL
    rw [envScanF_pre osEnv pre _ hpre, envScanF_shape2 osEnv N hN]
  have s3 : envPassL osEnv (pre ++ ('$' :: N)) =
      pre ++ (if osEnv (String.mk N) = "" then '$' :: N
              else (osEnv (String.mk N)).data) := by
    unfold envPassL
    rw [envScanF_pre osEnv pre _ hpre, envScanF_shape3 osEnv N hN]
  constructor <;> intro hv
  · rw [if_neg hv] at s1 s2 s3
    exact ⟨s1, s2, s3⟩
  · rw [if_pos hv] at s1 s2 s3
    exact ⟨s1, s2, s3⟩

theorem env_pass_on_placeholder_witness :
    envPassL osEnvHello ("user=".data ++ ('$' :: ('{' :: ("VAR".data ++ ['}'])))) =
      "user=".data ++ (osEnvHello (String.mk "VAR".data)).data ∧
    envPassL osEnvNone ("user=".data ++ ('$' :: ('{' :: ("VAR".data ++ ['}'])))) =
      "user=".data ++ ('$' :: ('{' :: ("VAR".data ++ ['}']))) :=
  ⟨((env_pass_on_placeholder osEnvHello "user=".data "VAR".data (by decide)
      (by decide)).1 (by decide)).1,
   ((env_pass_on_placeholder osEnvNone "user=".data "VAR".data (by decide)
      (by decide)).2 (by decide)).1⟩


/-! ### Valid identifiers fit the placeholder identifier class -/

theorem lower_ph (c : Char) (h : isLowerAZ c = true) : phClassC c = true := by
  simp [phClassC, isWordC, isAlphaAZ, h]

theorem digit_ph (c : Char) (h : isDigit09 c = true) : phClassC c = true := by
  simp [phClassC, isWordC, h]

theorem nameClass_ph (c : Char) (h : nameClassC c = true) : phClassC c = true := by
  simp only [nameClassC, Bool.or_eq_true] at h
  simp only [phClassC, Bool.or_eq_true]
  tauto

theorem arnName_ph (c : Char) (h : arnNameChar c = true) : phClassC c = true := by
  simp only [arnNameChar, Bool.or_eq_true] at h
  simp only [phClassC, Bool.or_eq_true]
  tauto

theorem arnRegionAfter_split (r1 rest : List Char)
    (h : arnRegionAfter r1 = some rest) :
    ∃ pre, r1 = pre ++ rest ∧ ∀ ch ∈ pre, phClassC ch = true := by
  unfold arnRegionAfter at h
  split at h
  case h_2 => exact absurd h (by simp)
  case h_1 a b c3 r =>
    split at h
    case isFalse => exact absurd h (by simp)
    case isTrue hcond =>
      simp only [Bool.and_eq_true, decide_eq_true_eq] at hcond
      obtain ⟨⟨ha, hb⟩, hc3⟩ := hcond
      dsimp only at h
      split at h
      case isTrue => exact absurd h (by simp)
      case isFalse hlow =>
        split at h
        case h_2 => exact absurd h (by simp)
        case h_1 d r2 heq =>
          split at h
          case isFalse => exact absurd h (by simp)
          case isTrue hd =>
            split at h
            case isFalse => exact absurd h (by simp)
            case isTrue hds =>
              simp only [Option.some.injEq] at h
              subst hc3 hd h
              refine ⟨a :: b :: '-' :: (r.takeWhile isLowerAZ ++
                '-' :: (r2.takeWhile isDigit09)), ?_, ?_⟩
              · have hr := List.takeWhile_append_dropWhile (p := isLowerAZ) (l := r)
                have hr2 := List.takeWhile_append_dropWhile (p := isDigit09) (l := r2)
                simp only [List.cons_append, List.append_assoc, List.cons.injEq,
                  true_and]
                rw [hr2, ← heq]
                exact hr.symm
              · intro ch hch
                simp only [List.mem_cons, List.mem_append] at hch
                rcases hch with rfl | rfl | rfl | hch | rfl | hch
                · exact lower_ph _ ha
                · exact lower_ph _ hb
                · decide
                · exact lower_ph _ (List.mem_takeWhile_imp hch)
                · decide
                · exact digit_ph _ (List.mem_takeWhile_imp hch)

theorem arnMatch_chars (s : List Char) (h : arnMatch s = true) :
    s ≠ [] ∧ ∀ ch ∈ s, phClassC ch = true := by
  unfold arnMatch at h
  split at h
  case h_1 => exact absurd h (by simp)
  case h_2 r1 hstrip =>
    split at h
    case h_1 => exact absurd h (by simp)
    case h_2 r2 hregion =>
      split at h
      case h_2 => exact absurd h (by simp)
      case h_1 c r3 =>
        simp only [Bool.and_eq_true, decide_eq_true_eq] at h
        obtain ⟨hc, hds12, h⟩ := h
        split at h
        case h_2 => exact absurd h (by simp)
        case h_1 d r5 heqr4 =>
          simp only [Bool.and_eq_true, decide_eq_true_eq] at h
          obtain ⟨hd, h⟩ := h
          split at h
          case h_2 => exact absurd h (by simp)
          case h_1 r6 hstrip2 =>
            simp only [Bool.and_eq_true, Bool.not_eq_true', List.isEmpty_eq_false,
              List.all_eq_true] at h
            have hs1 := stripLit_eq _ _ _ hstrip
            obtain ⟨pre1, hr1, hpre1⟩ := arnRegionAfter_split r1 _ hregion
            have hr3 := List.takeWhile_append_dropWhile (p := isDigit09) (l := r3)
            have hs2 := stripLit_eq _ _ _ hstrip2
            subst hc hd
            constructor
            · intro hempty
              rw [hempty] at hs1
              exact absurd hs1.symm (by simp)
            · intro ch hch
              rw [hs1, hr1] at hch
              rcases List.mem_append.mp hch with hch | hch
              · exact List.all_eq_true.mp
                  (by decide : ("arn:aws:secretsmanager:".data).all phClassC = true) ch hch
              rcases List.mem_append.mp hch with hch | hch
              · exact hpre1 ch hch
              rcases List.mem_cons.mp hch with rfl | hch
              · decide
              rw [← hr3] at hch
              rcases List.mem_append.mp hch with hch | hch
              · exact digit_ph _ (List.mem_takeWhile_imp hch)
              rw [heqr4] at hch
              rcases List.mem_cons.mp hch with rfl | hch
              · decide
              rw [hs2] at hch
              rcases List.mem_append.mp hch with hch | hch
              · exact List.all_eq_true.mp
                  (by decide : (['s', 'e', 'c', 'r', 'e', 't', ':']).all phClassC = true) ch hch
              · exact arnName_ph _ (h.2 ch hch)

/-- Every valid secret identifier is non-empty and lies entirely in the
identifier class of placeholderRegex, so it can appear in a placeholder. -/
theorem valid_chars (X : String) (hv : isValidSecretIdentifier X = true) :
    X.data ≠ [] ∧ ∀ ch ∈ X.data, phClassC ch = true := by
  unfold isValidSecretIdentifier at hv
  split at hv
  · exact absurd hv (by simp)
  · rcases Bool.or_eq_true_iff.mp hv with ha | hn
    · exact arnMatch_chars X.data ha
    · have hname : nameMatch X.data = true := by
        have := hn
        simp only [Bool.and_eq_true] at this
        exact this.1
      unfold nameMatch at hname
      simp only [Bool.and_eq_true, decide_eq_true_eq] at hname
      constructor
      · intro hempty
        rw [hempty] at hname
        simp at hname
      · intro ch hch
        exact nameClass_ph ch (List.all_eq_true.mp hname.2 ch hch)

/-! ### Scanner lemmas for the secret pass -/

theorem phAfterLead_subkey (x1 : Char) (xt K : List Char)
    (_hx1 : phClassC x1 = true) (hxt : ∀ c ∈ xt, phClassC c = true)
    (hK : K ≠ []) (hKw : ∀ c ∈ K, isWordC c = true) :
    phAfterLead (x1 :: (xt ++ ('[' :: (K ++ [']', '}'])))) =
      some (x1 :: (xt ++ ('[' :: (K ++ [']', '}']))), x1 :: xt, K, []) := by
  cases K with
  | nil => exact absurd rfl hK
  | cons k1 kt =>
    have hpb : phClassC '[' = false := by decide
    have hrun : List.takeWhile phClassC (xt ++ '[' :: k1 :: (kt ++ [']', '}'])) =
        xt := by
      have h2 := takeWhile_append_all phClassC xt
        ('[' :: k1 :: (kt ++ [']', '}'])) hxt
      simp only [List.takeWhile_cons, hpb] at h2
      simpa using h2
    have hafter : List.dropWhile phClassC (xt ++ '[' :: k1 :: (kt ++ [']', '}'])) =
        '[' :: k1 :: (kt ++ [']', '}']) := by
      have h2 := dropWhile_append_all phClassC xt
        ('[' :: k1 :: (kt ++ [']', '}'])) hxt
      simpa [List.dropWhile_cons, hpb] using h2
    have hw : List.takeWhile isWordC (k1 :: (kt ++ [']', '}'])) = k1 :: kt := by
      have h2 := takeWhile_append_all isWordC (k1 :: kt) [']', '}'] hKw
      simpa [show List.takeWhile isWordC [']', '}'] = [] from by decide] using h2
    have hwd : List.dropWhile isWordC (k1 :: (kt ++ [']', '}'])) = [']', '}'] := by
      have h2 := dropWhile_append_all isWordC (k1 :: kt) [']', '}'] hKw
      simpa [show List.dropWhile isWordC [']', '}'] = [']', '}'] from by decide]
        using h2
    simp [phAfterLead, hrun, hafter, hw, hwd]

theorem phAfterLead_plain (x1 : Char) (xt : List Char)
    (_hx1 : phClassC x1 = true) (hxt : ∀ c ∈ xt, phClassC c = true) :
    phAfterLead (x1 :: (xt ++ ['}'])) =
      some (x1 :: (xt ++ ['}']), x1 :: xt, [], []) := by
  have hpb : phClassC '}' = false := by decide
  have hrun : List.takeWhile phClassC (xt ++ ['}']) = xt := by
    have h2 := takeWhile_append_all phClassC xt ['}'] hxt
    simp only [List.takeWhile_cons, hpb] at h2
    simpa using h2
  have hafter : List.dropWhile phClassC (xt ++ ['}']) = ['}'] := by
    have h2 := dropWhile_append_all phClassC xt ['}'] hxt
    simpa [List.dropWhile_cons, hpb] using h2
  simp [phAfterLead, hrun, hafter]

theorem ph_head_ne_brace (x1 : Char) (hx1 : phClassC x1 = true) : x1 ≠ '{' := by
  intro h
  subst h
  exact absurd hx1 (by decide)

theorem phMatchAt_subkey (X K : List Char) (hX : X ≠ [])
    (hXc : ∀ c ∈ X, phClassC c = true) (hK : K ≠ [])
    (hKw : ∀ c ∈ K, isWordC c = true) :
    phMatchAt ('{' :: (X ++ ('[' :: (K ++ [']', '}'])))) =
      some ('{' :: (X ++ ('[' :: (K ++ [']', '}']))), X, K, []) := by
  cases X with
  | nil => exact absurd rfl hX
  | cons x1 xt =>
    have hx1 := hXc x1 (by simp)
    have hne := ph_head_ne_brace x1 hx1
    have hxt : ∀ c ∈ xt, phClassC c = true := fun c hc => hXc c (by simp [hc])
    simp [phMatchAt, hne, phAfterLead_subkey x1 xt K hx1 hxt hK hKw]

theorem phMatchAt_plain (X : List Char) (hX : X ≠ [])
    (hXc : ∀ c ∈ X, phClassC c = true) :
    phMatchAt ('{' :: (X ++ ['}'])) =
      some ('{' :: (X ++ ['}']), X, [], []) := by
  cases X with
  | nil => exact absurd rfl hX
  | cons x1 xt =>
    have hx1 := hXc x1 (by simp)
    have hne := ph_head_ne_brace x1 hx1
    have hxt : ∀ c ∈ xt, phClassC c = true := fun c hc => hXc c (by simp [hc])
    simp [phMatchAt, hne, phAfterLead_plain x1 xt hx1 hxt]

/-- One whole-line placeholder match: the scan performs the replacement
decision for the match and stops. -/
theorem secretScanF_single (env : AwsEnv) (cl cl1 : Client)
    (rest full id sub : List Char) (res : String × Option GoError)
    (evs1 : List Ev) (n : Nat)
    (hm : phMatchAt ('{' :: rest) = some (full, id, sub, []))
    (hg : GetSecret env cl (String.mk id) = some (res, cl1, evs1)) :
    secretScanF env (n + 1) cl ('{' :: rest) =
      some ((secretStep res sub full).1, cl1, (secretStep res sub full).2.1,
        evs1 ++ (secretStep res sub full).2.2) := by
  simp [secretScanF, hm, hg]

theorem string_mk_data (s : String) : String.mk s.data = s := rfl

theorem string_mk_eq (l : List Char) (s : String) (h : l = s.data) :
    String.mk l = s := by
  rw [h]

/-- C10: a secret that resolved successfully to the empty string leaves the
placeholder unchanged, counts no failure and logs nothing: the engine
silently skips it. -/
theorem empty_secret_silently_skipped (env : AwsEnv) (c : Client) (X : String)
    (hv : isValidSecretIdentifier X = true)
    (hc : lookupA c.secrets X = some ⟨"", none⟩) :
    secretPass env c ("\x7b" ++ X ++ "\x7d") =
      some ("\x7b" ++ X ++ "\x7d", c, 0, []) := by
  obtain ⟨hne, hchars⟩ := valid_chars X hv
  have hdata : ("\x7b" ++ X ++ "\x7d").data = '{' :: (X.data ++ ['}']) := by
    simp [show ("\x7b" : String).data = ['{'] from rfl,
      show ("\x7d" : String).data = ['}'] from rfl]
  have hm := phMatchAt_plain X.data hne hchars
  have hg : GetSecret env c (String.mk X.data) = some (("", none), c, []) := by
    rw [string_mk_data X]
    exact getSecret_cached_hit env c X ⟨"", none⟩ hv hc
  unfold secretPass
  rw [hdata]
  simp only [List.length_cons]
  rw [secretScanF_single env c c (X.data ++ ['}']) ('{' :: (X.data ++ ['}']))
    X.data [] ("", none) [] (X.data ++ ['}']).length hm hg]
  simp [secretStep]
  rw [← hdata, string_mk_data]

/-- C9: sub-key projection against the cached JSON object of the
specification: a present key substitutes its value with no failure; a
missing key leaves the placeholder unchanged and adds exactly one failure
(logging the key); a value that does not parse as a flat string map leaves
the placeholder unchanged and adds exactly one failure (logging the parse
error). -/
theorem subkey_projection (env : AwsEnv) (c c2 : Client) (X w : String)
    (hv : isValidSecretIdentifier X = true)
    (hc : lookupA c.secrets X = some ⟨jsonUserPass, none⟩)
    (hc2 : lookupA c2.secrets X = some ⟨w, none⟩)
    (hw : parseFlatJson w = none) (hwne : w ≠ "") :
    secretPass env c ("\x7b" ++ X ++ "[pass]\x7d") = some ("s3cr3t", c, 0, []) ∧
    secretPass env c ("\x7b" ++ X ++ "[missing]\x7d") =
      some ("\x7b" ++ X ++ "[missing]\x7d", c, 1, [Ev.logKeyMissing "missing"]) ∧
    secretPass env c2 ("\x7b" ++ X ++ "[pass]\x7d") =
      some ("\x7b" ++ X ++ "[pass]\x7d", c2, 1, [Ev.logJsonErr]) := by
  obtain ⟨hne, hchars⟩ := valid_chars X hv
  have hKp : (['p', 'a', 's', 's'] : List Char) ≠ [] := by decide
  have hKpw : ∀ ch ∈ (['p', 'a', 's', 's'] : List Char), isWordC ch = true := by
    decide
  have hKm : (['m', 'i', 's', 's', 'i', 'n', 'g'] : List Char) ≠ [] := by decide
  have hKmw : ∀ ch ∈ (['m', 'i', 's', 's', 'i', 'n', 'g'] : List Char),
      isWordC ch = true := by decide
  have hdp : ("\x7b" ++ X ++ "[pass]\x7d").data =
      '{' :: (X.data ++ ('[' :: (['p', 'a', 's', 's'] ++ [']', '}']))) := by
    simp [show ("\x7b" : String).data = ['{'] from rfl,
      show ("[pass]\x7d" : String).data =
        '[' :: (['p', 'a', 's', 's'] ++ [']', '}']) from rfl]
  have hdm : ("\x7b" ++ X ++ "[missing]\x7d").data =
      '{' :: (X.data ++ ('[' :: (['m', 'i', 's', 's', 'i', 'n', 'g'] ++
        [']', '}']))) := by
    simp [show ("\x7b" : String).data = ['{'] from rfl,
      show ("[missing]\x7d" : String).data =
        '[' :: (['m', 'i', 's', 's', 'i', 'n', 'g'] ++ [']', '}']) from rfl]
  have hmp := phMatchAt_subkey X.data ['p', 'a', 's', 's'] hne hchars hKp hKpw
  have hmm := phMatchAt_subkey X.data ['m', 'i', 's', 's', 'i', 'n', 'g'] hne
    hchars hKm hKmw
  have hgc : GetSecret env c (String.mk X.data) =
      some ((jsonUserPass, none), c, []) := by
    rw [string_mk_data X]
    exact getSecret_cached_hit env c X ⟨jsonUserPass, none⟩ hv hc
  have hgc2 : GetSecret env c2 (String.mk X.data) = some ((w, none), c2, []) := by
    rw [string_mk_data X]
    exact getSecret_cached_hit env c2 X ⟨w, none⟩ hv hc2
  have hjson : parseFlatJson jsonUserPass =
      some [("user", "alice"), ("pass", "s3cr3t")] := by decide
  have hjne : jsonUserPass ≠ "" := by decide
  refine ⟨?_, ?_, ?_⟩
  · unfold secretPass
    rw [hdp]
    simp only [List.length_cons]
    rw [secretScanF_single env c c
      (X.data ++ ('[' :: (['p', 'a', 's', 's'] ++ [']', '}'])))
      ('{' :: (X.data ++ ('[' :: (['p', 'a', 's', 's'] ++ [']', '}']))))
      X.data ['p', 'a', 's', 's'] (jsonUserPass, none) []
      (X.data ++ ('[' :: (['p', 'a', 's', 's'] ++ [']', '}']))).length hmp hgc]
    simp [secretStep, hjson, hjne,
      show lookupA [("user", "alice"), ("pass", "s3cr3t")]
        (String.mk ['p', 'a', 's', 's']) = some "s3cr3t" from by decide]
  · unfold secretPass
    rw [hdm]
    simp only [List.length_cons]
    rw [secretScanF_single env c c
      (X.data ++ ('[' :: (['m', 'i', 's', 's', 'i', 'n', 'g'] ++ [']', '}'])))
      ('{' :: (X.data ++ ('[' :: (['m', 'i', 's', 's', 'i', 'n', 'g'] ++
        [']', '}']))))
      X.data ['m', 'i', 's', 's', 'i', 'n', 'g'] (jsonUserPass, none) []
      (X.data ++ ('[' :: (['m', 'i', 's', 's', 'i', 'n', 'g'] ++
        [']', '}']))).length hmm hgc]
    simp only [secretStep, hjson, hjne,
      show lookupA [("user", "alice"), ("pass", "s3cr3t")]
        (String.mk ['m', 'i', 's', 's', 'i', 'n', 'g']) = none from by decide]
    simp [show String.mk ['m', 'i', 's', 's', 'i', 'n', 'g'] = "missing" from
      by decide]
    apply string_mk_eq
    rw [hdm]
    simp
  · unfold secretPass
    rw [hdp]
    simp only [List.length_cons]
    rw [secretScanF_single env c2 c2
      (X.data ++ ('[' :: (['p', 'a', 's', 's'] ++ [']', '}'])))
      ('{' :: (X.data ++ ('[' :: (['p', 'a', 's', 's'] ++ [']', '}']))))
      X.data ['p', 'a', 's', 's'] (w, none) []
      (X.data ++ ('[' :: (['p', 'a', 's', 's'] ++ [']', '}']))).length hmp hgc2]
    simp [secretStep, hw, hwne]
    apply string_mk_eq
    rw [hdp]
    simp

/-- C9 witness: concrete clients caching the specification JSON value and a
non-JSON value under the identifier mysecret. -/
theorem subkey_projection_witness :
    secretPass envStub
      { sessions := [], services := [],
        secrets := [("mysecret", ⟨jsonUserPass, none⟩)],
        profile := "p", defaultRegion := "" }
      ("\x7b" ++ "mysecret" ++ "[pass]\x7d") =
      some ("s3cr3t",
        { sessions := [], services := [],
          secrets := [("mysecret", ⟨jsonUserPass, none⟩)],
          profile := "p", defaultRegion := "" }, 0, []) ∧
    secretPass envStub
      { sessions := [], services := [],
        secrets := [("mysecret", ⟨jsonUserPass, none⟩)],
        profile := "p", defaultRegion := "" }
      ("\x7b" ++ "mysecret" ++ "[missing]\x7d") =
      some ("\x7b" ++ "mysecret" ++ "[missing]\x7d",
        { sessions := [], services := [],
          secrets := [("mysecret", ⟨jsonUserPass, none⟩)],
          profile := "p", defaultRegion := "" }, 1,
        [Ev.logKeyMissing "missing"]) ∧
    secretPass envStub
      { sessions := [], services := [],
        secrets := [("mysecret", ⟨"notjson", none⟩)],
        profile := "p", defaultRegion := "" }
      ("\x7b" ++ "mysecret" ++ "[pass]\x7d") =
      some ("\x7b" ++ "mysecret" ++ "[pass]\x7d",
        { sessions := [], services := [],
          secrets := [("mysecret", ⟨"notjson", none⟩)],
          profile := "p", defaultRegion := "" }, 1, [Ev.logJsonErr]) :=
  subkey_projection envStub
    { sessions := [], services := [],
      secrets := [("mysecret", ⟨jsonUserPass, none⟩)],
      profile := "p", defaultRegion := "" }
    { sessions := [], services := [],
      secrets := [("mysecret", ⟨"notjson", none⟩)],
      profile := "p", defaultRegion := "" }
    "mysecret" "notjson" (by decide) (by decide) (by decide) (by decide)
    (by decide)

/-- C10 witness: a client caching an empty-string success under mysecret. -/
theorem empty_secret_silently_skipped_witness :
    secretPass envStub
      { sessions := [], services := [],
        secrets := [("mysecret", ⟨"", none⟩)],
        profile := "p", defaultRegion := "" }
      ("\x7b" ++ "mysecret" ++ "\x7d") =
      some ("\x7b" ++ "mysecret" ++ "\x7d",
        { sessions := [], services := [],
          secrets := [("mysecret", ⟨"", none⟩)],
          profile := "p", defaultRegion := "" }, 0, []) :=
  empty_secret_silently_skipped envStub
    { sessions := [], services := [],
      secrets := [("mysecret", ⟨"", none⟩)],
      profile := "p", defaultRegion := "" }
    "mysecret" (by decide) (by decide)

end Envcfg
